import Mathlib

/-!
Verification development for the pharmakin repository.

The embedding models the core modules:
* `pharmakin/units.py` (pint-backed unit helpers `has_units`, `coerce_float`, `coerce_unit`),
* `pharmakin/utils/parameter_base.py` (`Parameter` with `ensure_units`, `ensure_float`,
  `is_valid`, `validate`),
* `pharmakin/utils/formula.py` (`Formula`, `Formulary` with `express_parameter` and
  `determine_parameter`),
* `pharmakin/utils/registry.py` (the legacy `Formulary.determine_parameter`).

Python floats are modelled as rationals, Python ints as integers, and pint quantities as a
rational magnitude paired with a unit.  A pint unit is modelled by its dimensionality
(exponents of the three base dimensions mass, volume, time used by the repository's `Dim`
registry) together with a positive rational scale factor relative to the canonical base
units.  Python exceptions are modelled with `Except` over an error kind; exception messages
are not modelled, only the class of the exception.
-/

deriving instance DecidableEq for Except

namespace Pharmakin

/-- Kinds of Python exceptions raised by the modelled code paths. -/
inductive PyErr
  | runtimeError
  | valueError
  | typeError
  | keyError
  | assertionError
  | attributeError
  | zeroDivisionError
  | dimensionalityError
  | nameError
deriving DecidableEq, Repr

/-- An exact fraction of integers, modelling the Python floats flowing through the
computations (the repository's arithmetic is exact on the modelled operations, so "within
floating tolerance" becomes exact numeric equality).  Fractions are not normalised;
numeric comparisons go through `Frac.leF` and `Frac.eqF`.  Operations keep the denominator
positive whenever the operands have positive denominators. -/
structure Frac where
  num : ℤ
  den : ℤ
deriving DecidableEq, Repr

/-- The fraction representing an integer. -/
def Frac.ofInt (n : ℤ) : Frac := ⟨n, 1⟩

/-- Addition of fractions. -/
def Frac.addF (a b : Frac) : Frac := ⟨a.num * b.den + b.num * a.den, a.den * b.den⟩

/-- Subtraction of fractions. -/
def Frac.subF (a b : Frac) : Frac := ⟨a.num * b.den - b.num * a.den, a.den * b.den⟩

/-- Multiplication of fractions. -/
def Frac.mulF (a b : Frac) : Frac := ⟨a.num * b.num, a.den * b.den⟩

/-- Division of fractions, with the sign moved into the numerator so that a positive
denominator is preserved. -/
def Frac.divF (a b : Frac) : Frac :=
  if 0 ≤ b.num then ⟨a.num * b.den, a.den * b.num⟩ else ⟨-(a.num * b.den), a.den * -b.num⟩

/-- Whether the fraction is numerically zero. -/
def Frac.isZero (a : Frac) : Bool := a.num = 0

/-- Numeric order on fractions (cross-multiplication; faithful for positive
denominators). -/
def Frac.leF (a b : Frac) : Bool := a.num * b.den ≤ b.num * a.den

/-- Numeric equality of fractions (cross-multiplication; Python's `==` on floats). -/
def Frac.eqF (a b : Frac) : Bool := a.num * b.den = b.num * a.den

/-- Wellformedness of a fraction: a positive denominator (every Python float is modelled
by a wellformed fraction). -/
def Frac.wf (a : Frac) : Bool := 0 < a.den

/-- Model of a `pint.Unit` as produced from the repository's `Dim` registry: the exponents
of the base dimensions mass (grams), volume (millilitres) and time (hours), together with
the scale factor of the unit relative to those base units (e.g. milligram has mass exponent
1 and factor 1/1000).  Two units are dimensionally compatible exactly when their exponent
triples agree. -/
structure PintUnit where
  mass : ℤ
  volume : ℤ
  time : ℤ
  factor : Frac
deriving DecidableEq, Repr

/-- The dimensionality signature of a unit. -/
def PintUnit.dims (u : PintUnit) : ℤ × ℤ × ℤ := (u.mass, u.volume, u.time)

/-- `pint`: a unit is dimensionless when all base-dimension exponents vanish. -/
def PintUnit.dimensionless (u : PintUnit) : Bool :=
  u.mass = 0 && u.volume = 0 && u.time = 0

/-- `pint.Unit.is_compatible_with`: same dimensionality. -/
def PintUnit.is_compatible_with (u v : PintUnit) : Bool := u.dims = v.dims

/-- The unit of a product of quantities. -/
def PintUnit.mulUnit (u v : PintUnit) : PintUnit :=
  ⟨u.mass + v.mass, u.volume + v.volume, u.time + v.time, u.factor.mulF v.factor⟩

/-- The unit of a quotient of quantities. -/
def PintUnit.divUnit (u v : PintUnit) : PintUnit :=
  ⟨u.mass - v.mass, u.volume - v.volume, u.time - v.time, u.factor.divF v.factor⟩

/-- The reciprocal unit. -/
def PintUnit.invUnit (u : PintUnit) : PintUnit :=
  ⟨-u.mass, -u.volume, -u.time, (Frac.ofInt 1).divF u.factor⟩

/-- A Python value flowing through the computation paths: a bare `int`, a bare `float`, or a
`pint.Quantity` (magnitude with unit).  The `int` constructor models any bare value that is
not an exact `float` instance. -/
inductive Value
  | int : ℤ → Value
  | float : Frac → Value
  | qty : Frac → PintUnit → Value
deriving DecidableEq, Repr

/-- Whether a value is a bare number (no attached `pint` unit object). -/
def Value.isBare : Value → Bool
  | .int _ => true
  | .float _ => true
  | .qty _ _ => false

/-- The numeric content of a value (magnitude for quantities). -/
def Value.mag : Value → Frac
  | .int n => Frac.ofInt n
  | .float q => q
  | .qty m _ => m

/-- `pharmakin.utils.units.has_units` (the file is referenced throughout the package;
`pharmakin/units.py` contains the identical `has_unit`):
`isinstance(value, pint.Quantity) and not value.dimensionless`. -/
def has_units : Value → Bool
  | .qty _ u => !u.dimensionless
  | _ => false

/-- `pharmakin.units.coerce_float`: a quantity is converted to `target_unit` (when given)
and its magnitude returned; a bare value is returned as-is.  `pint`'s `.to` raises a
`DimensionalityError` on incompatible dimensions; the converted magnitude is a float. -/
def coerce_float (value : Value) (target_unit : Option PintUnit) : Except PyErr Value :=
  match value with
  | .qty m u =>
      match target_unit with
      | some t =>
          if u.dims = t.dims then .ok (.float ((m.mulF u.factor).divF t.factor))
          else .error .dimensionalityError
      | none => .ok (.float m)
  | v => .ok v

/-- `pharmakin.units.coerce_unit`: a quantity is converted to the given unit (raising on
incompatible dimensions); a bare value is wrapped as a quantity `Q_(value, unit)`. -/
def coerce_unit (value : Value) (unit : PintUnit) : Except PyErr Value :=
  match value with
  | .qty m u =>
      if u.dims = unit.dims then .ok (.qty ((m.mulF u.factor).divF unit.factor) unit)
      else .error .dimensionalityError
  | .int n => .ok (.qty (Frac.ofInt n) unit)
  | .float q => .ok (.qty q unit)

/-- Model of a parameter class (`pharmakin.utils.parameter_base.Parameter` subclass):
`ParameterMeta` enforces an explicitly declared unit, and the class carries bounds
`lower`/`upper` (with `upper = float("inf")` modelled as `none`).  The `name` field models
`cls.__name__`. -/
structure Parameter where
  name : String
  unit : PintUnit
  lower : Frac
  upper : Option Frac
deriving DecidableEq, Repr

/-- `Parameter._unit_is_valid`: a bare `float` passes immediately; a quantity is checked
for dimensional compatibility.  Any other bare value (e.g. a Python `int`) is neither a
`float` nor a `pint.Unit`, so the attribute access `value.units` raises `AttributeError`. -/
def Parameter.unit_is_valid (cls : Parameter) (value : Value) : Except PyErr Bool :=
  match value with
  | .float _ => .ok true
  | .qty _ u => .ok (u.is_compatible_with cls.unit)
  | .int _ => .error .attributeError

/-- `Parameter.ensure_units`: a quantity (without forcing) is compatibility-checked and
returned unchanged (`RuntimeError` on incompatible units); otherwise the value is coerced
to the parameter's default unit. -/
def Parameter.ensure_units (cls : Parameter) (value : Value)
    (force_standard_units : Bool := false) : Except PyErr Value :=
  match value with
  | .qty m u =>
      if force_standard_units then coerce_unit (.qty m u) cls.unit
      else
        match cls.unit_is_valid (.qty m u) with
        | .ok true => .ok (.qty m u)
        | .ok false => .error .runtimeError
        | .error e => .error e
  | v => coerce_unit v cls.unit

/-- `Parameter.ensure_float`: convert a value into its magnitude in the default unit. -/
def Parameter.ensure_float (cls : Parameter) (value : Value) : Except PyErr Value :=
  coerce_float value (some cls.unit)

/-- Bounds check `cls.lower <= value <= cls.upper` (`upper = none` models infinity). -/
def Parameter.inBounds (cls : Parameter) (q : Frac) : Bool :=
  cls.lower.leF q &&
    (match cls.upper with
     | none => true
     | some u => q.leF u)

/-- `Parameter.is_valid`: unit check first (an `AttributeError` from `_unit_is_valid`
propagates), then conversion to a canonical-unit magnitude and the bounds comparison. -/
def Parameter.is_valid (cls : Parameter) (value : Value) : Except PyErr Bool :=
  match cls.unit_is_valid value with
  | .error e => .error e
  | .ok false => .ok false
  | .ok true =>
      match cls.ensure_float value with
      | .error e => .error e
      | .ok v => .ok (cls.inBounds v.mag)

/-- `Parameter.validate`: raise `ValueError` when `is_valid` returns false. -/
def Parameter.validate (cls : Parameter) (value : Value) : Except PyErr Unit :=
  match cls.is_valid value with
  | .error e => .error e
  | .ok true => .ok ()
  | .ok false => .error .valueError

/-- Deep embedding of the sympy arithmetic expressions built by the repository's formulas
(symbols, numeric constants, and the four arithmetic operations used by the formula
functions). -/
inductive Expr
  | sym : String → Expr
  | num : Frac → Expr
  | add : Expr → Expr → Expr
  | sub : Expr → Expr → Expr
  | mul : Expr → Expr → Expr
  | div : Expr → Expr → Expr
deriving DecidableEq, Repr

/-- `expr.atoms(sympy.Symbol)`: the set of free symbols of an expression. -/
def Expr.syms : Expr → Finset String
  | .sym s => {s}
  | .num _ => ∅
  | .add a b => a.syms ∪ b.syms
  | .sub a b => a.syms ∪ b.syms
  | .mul a b => a.syms ∪ b.syms
  | .div a b => a.syms ∪ b.syms

/-- A `sympy.Equality` between two expressions. -/
structure Equation where
  lhs : Expr
  rhs : Expr
deriving DecidableEq, Repr

/-- `eq.atoms(sympy.Symbol)`: free symbols of an equation. -/
def Equation.syms (eq : Equation) : Finset String := eq.lhs.syms ∪ eq.rhs.syms

/-- Python's addition on the modelled values, with `pint` semantics for quantities:
int+int stays int, any float makes a float, quantities require compatible dimensions (the
right operand is converted into the left operand's unit), and mixing a quantity with a bare
number requires the quantity to be dimensionless. -/
def Value.addV : Value → Value → Except PyErr Value
  | .int a, .int b => .ok (.int (a + b))
  | .int a, .float b => .ok (.float ((Frac.ofInt a).addF b))
  | .float a, .int b => .ok (.float (a.addF (Frac.ofInt b)))
  | .float a, .float b => .ok (.float (a.addF b))
  | .qty m u, .qty n v =>
      if u.dims = v.dims then .ok (.qty (m.addF ((n.mulF v.factor).divF u.factor)) u)
      else .error .dimensionalityError
  | .qty m u, .int n =>
      if u.dimensionless then .ok (.qty (m.addF ((Frac.ofInt n).divF u.factor)) u)
      else .error .dimensionalityError
  | .qty m u, .float q =>
      if u.dimensionless then .ok (.qty (m.addF (q.divF u.factor)) u)
      else .error .dimensionalityError
  | .int n, .qty m u =>
      if u.dimensionless then .ok (.qty (((Frac.ofInt n).divF u.factor).addF m) u)
      else .error .dimensionalityError
  | .float q, .qty m u =>
      if u.dimensionless then .ok (.qty ((q.divF u.factor).addF m) u)
      else .error .dimensionalityError

/-- Python's subtraction, mirroring `Value.addV`. -/
def Value.subV : Value → Value → Except PyErr Value
  | .int a, .int b => .ok (.int (a - b))
  | .int a, .float b => .ok (.float ((Frac.ofInt a).subF b))
  | .float a, .int b => .ok (.float (a.subF (Frac.ofInt b)))
  | .float a, .float b => .ok (.float (a.subF b))
  | .qty m u, .qty n v =>
      if u.dims = v.dims then .ok (.qty (m.subF ((n.mulF v.factor).divF u.factor)) u)
      else .error .dimensionalityError
  | .qty m u, .int n =>
      if u.dimensionless then .ok (.qty (m.subF ((Frac.ofInt n).divF u.factor)) u)
      else .error .dimensionalityError
  | .qty m u, .float q =>
      if u.dimensionless then .ok (.qty (m.subF (q.divF u.factor)) u)
      else .error .dimensionalityError
  | .int n, .qty m u =>
      if u.dimensionless then .ok (.qty (((Frac.ofInt n).divF u.factor).subF m) u)
      else .error .dimensionalityError
  | .float q, .qty m u =>
      if u.dimensionless then .ok (.qty ((q.divF u.factor).subF m) u)
      else .error .dimensionalityError

/-- Python's multiplication with `pint` semantics (units multiply). -/
def Value.mulV : Value → Value → Except PyErr Value
  | .int a, .int b => .ok (.int (a * b))
  | .int a, .float b => .ok (.float ((Frac.ofInt a).mulF b))
  | .float a, .int b => .ok (.float (a.mulF (Frac.ofInt b)))
  | .float a, .float b => .ok (.float (a.mulF b))
  | .qty m u, .qty n v => .ok (.qty (m.mulF n) (u.mulUnit v))
  | .qty m u, .int n => .ok (.qty (m.mulF (Frac.ofInt n)) u)
  | .qty m u, .float q => .ok (.qty (m.mulF q) u)
  | .int n, .qty m u => .ok (.qty ((Frac.ofInt n).mulF m) u)
  | .float q, .qty m u => .ok (.qty (q.mulF m) u)

/-- Python's true division with `pint` semantics (units divide); division by a zero
magnitude raises `ZeroDivisionError`, and bare division always yields a float. -/
def Value.divV : Value → Value → Except PyErr Value
  | .int a, .int b =>
      if b = 0 then .error .zeroDivisionError
      else .ok (.float ((Frac.ofInt a).divF (Frac.ofInt b)))
  | .int a, .float b =>
      if b.isZero then .error .zeroDivisionError else .ok (.float ((Frac.ofInt a).divF b))
  | .float a, .int b =>
      if b = 0 then .error .zeroDivisionError else .ok (.float (a.divF (Frac.ofInt b)))
  | .float a, .float b =>
      if b.isZero then .error .zeroDivisionError else .ok (.float (a.divF b))
  | .qty m u, .qty n v =>
      if n.isZero then .error .zeroDivisionError else .ok (.qty (m.divF n) (u.divUnit v))
  | .qty m u, .int n =>
      if n = 0 then .error .zeroDivisionError else .ok (.qty (m.divF (Frac.ofInt n)) u)
  | .qty m u, .float q =>
      if q.isZero then .error .zeroDivisionError else .ok (.qty (m.divF q) u)
  | .int n, .qty m u =>
      if m.isZero then .error .zeroDivisionError
      else .ok (.qty ((Frac.ofInt n).divF m) u.invUnit)
  | .float q, .qty m u =>
      if m.isZero then .error .zeroDivisionError else .ok (.qty (q.divF m) u.invUnit)

/-- Association-list lookup for the Python dictionaries flowing through the code. -/
def lookupKey {β : Type} : List (String × β) → String → Option β
  | [], _ => none
  | (k, v) :: rest, s => if k = s then some v else lookupKey rest s

/-- Evaluation of a lambdified sympy expression on Python values, with the left operand of
every binary operation evaluated first (Python evaluation order). -/
def evalExpr : Expr → (String → Option Value) → Except PyErr Value
  | .num q, _ => .ok (.float q)
  | .sym s, env =>
      match env s with
      | some v => .ok v
      | none => .error .nameError
  | .add a b, env =>
      match evalExpr a env, evalExpr b env with
      | .ok x, .ok y => x.addV y
      | .error e, _ => .error e
      | .ok _, .error e => .error e
  | .sub a b, env =>
      match evalExpr a env, evalExpr b env with
      | .ok x, .ok y => x.subV y
      | .error e, _ => .error e
      | .ok _, .error e => .error e
  | .mul a b, env =>
      match evalExpr a env, evalExpr b env with
      | .ok x, .ok y => x.mulV y
      | .error e, _ => .error e
      | .ok _, .error e => .error e
  | .div a b, env =>
      match evalExpr a env, evalExpr b env with
      | .ok x, .ok y => x.divV y
      | .error e, _ => .error e
      | .ok _, .error e => .error e

/-- `_make_callable_from_sympy_expression` followed by a keyword call: `sympy.lambdify`
generates a function whose parameters are exactly the sorted free symbols of the
expression, so a keyword call succeeds only when the supplied keys are precisely those
symbols (a missing or extra keyword raises `TypeError`).  The `evalf` normalisation of the
expression is numerically transparent in this model. -/
def lambdifyCall (expr : Expr) (kwds : List (String × Value)) : Except PyErr Value :=
  if (kwds.map Prod.fst).toFinset = expr.syms ∧ (kwds.map Prod.fst).Nodup then
    evalExpr expr (lookupKey kwds)
  else .error .typeError

/-- Single-variable isolation: solve the equation `side = rhs` for `t`, assuming `t` occurs
in `side` and not in `rhs`, by peeling the outermost arithmetic operation.  This models the
behaviour of `sympy.solve(eq, t)` on the relations handled by the repository, where the
target occurs exactly once and the solution is unique. -/
def isolate : Expr → Expr → String → Option Expr
  | .sym s, rhs, t => if s = t then some rhs else none
  | .num _, _, _ => none
  | .add a b, rhs, t =>
      if t ∈ a.syms && !(t ∈ b.syms) then isolate a (.sub rhs b) t
      else if t ∈ b.syms && !(t ∈ a.syms) then isolate b (.sub rhs a) t
      else none
  | .sub a b, rhs, t =>
      if t ∈ a.syms && !(t ∈ b.syms) then isolate a (.add rhs b) t
      else if t ∈ b.syms && !(t ∈ a.syms) then isolate b (.sub a rhs) t
      else none
  | .mul a b, rhs, t =>
      if t ∈ a.syms && !(t ∈ b.syms) then isolate a (.div rhs b) t
      else if t ∈ b.syms && !(t ∈ a.syms) then isolate b (.div rhs a) t
      else none
  | .div a b, rhs, t =>
      if t ∈ a.syms && !(t ∈ b.syms) then isolate a (.mul rhs b) t
      else if t ∈ b.syms && !(t ∈ a.syms) then isolate b (.div a rhs) t
      else none

/-- `sympy.solve(eq, t)` on a single equation: isolate `t` from whichever side contains it
(the other side must not mention `t`).  `none` models sympy returning no solution. -/
def solveEq (eq : Equation) (t : String) : Option Expr :=
  if t ∈ eq.lhs.syms && !(t ∈ eq.rhs.syms) then isolate eq.lhs eq.rhs t
  else if t ∈ eq.rhs.syms && !(t ∈ eq.lhs.syms) then isolate eq.rhs eq.lhs t
  else none

/-- `sympy.solve(equations, t)` over the whole system, as used by the fallback branch of
`Formulary.express_parameter`: the solutions for `t` obtainable from the individual
relations of the system. -/
def solveSystem (eqs : List Equation) (t : String) : List Expr :=
  eqs.filterMap (fun eq => solveEq eq t)

/-- Model of a Python numeric function as supplied to `Formula`: its declared parameter
names in declared order (`inspect.signature(func).parameters`), and the arithmetic
expression its body computes over those parameters.  Invoking the function on arguments is
evaluation of the body with the parameters bound to those arguments. -/
structure PyFunc where
  params : List String
  body : Expr
deriving DecidableEq, Repr

/-- `pharmakin.utils.formula._convert_to_sympy_expression`: invoke the function once with
one fresh `sympy.Symbol(k)` per declared parameter `k`.  Evaluating the arithmetic body on
the symbols named after its own parameters reproduces the body expression (sympy's
automatic simplification of the resulting tree is not modelled). -/
def convert_to_sympy_expression (func : PyFunc) : Expr := func.body

/-- `pharmakin.utils.formula.Formula`: constructed from a numeric function and the class of
the resulting parameter.  The symbolic data computed by `Formula.__init__` is a function of
these two fields and is exposed through `Formula.rhs`, `Formula.lhs`, `Formula.eq` and
`Formula.inputs` below. -/
structure Formula where
  func : PyFunc
  result_class : Parameter
deriving DecidableEq, Repr

/-- `self.rhs = _convert_to_sympy_expression(func=self.func)`. -/
def Formula.rhs (f : Formula) : Expr := convert_to_sympy_expression f.func

/-- `self.lhs = sympy.Symbol(self.result_class.__name__)`. -/
def Formula.lhs (f : Formula) : Expr := .sym f.result_class.name

/-- `self.eq = sympy.Equality(self.lhs, self.rhs)`. -/
def Formula.eq (f : Formula) : Equation := ⟨f.lhs, f.rhs⟩

/-- `Formula.inputs`: the declared argument names of the underlying function, in declared
order. -/
def Formula.inputs (f : Formula) : List String := f.func.params

/-- `Formula.validate_input`: count the inputs that carry units and require the count to be
zero or the total number of inputs, raising `RuntimeError` otherwise. -/
def Formula.validate_input (kwds : List (String × Value)) : Except PyErr Unit :=
  let n_units := (kwds.filter (fun kv => has_units kv.2)).length
  if n_units = 0 ∨ n_units = kwds.length then .ok () else .error .runtimeError

/-- `Formula._to_keywords`: bind the call's keyword arguments against the underlying
function's signature, producing the arguments in declared order; a missing or unexpected
keyword raises `TypeError`. -/
def Formula.to_keywords (f : Formula) (kwargs : List (String × Value)) :
    Except PyErr (List (String × Value)) :=
  if (kwargs.map Prod.fst).toFinset = f.inputs.toFinset ∧ (kwargs.map Prod.fst).Nodup then
    .ok (f.inputs.filterMap (fun k => (lookupKey kwargs k).map (fun v => (k, v))))
  else .error .typeError

/-- `Formula.compute`: validate unit consistency of the inputs, evaluate the compiled
expression (`self._call`), validate the result against the result parameter, then apply the
unit-forcing policy for `with_units` (`none` leaves the result as computed). -/
def Formula.compute (f : Formula) (kwds : List (String × Value)) (with_units : Option Bool) :
    Except PyErr Value :=
  match Formula.validate_input kwds with
  | .error e => .error e
  | .ok () =>
      match lambdifyCall f.rhs kwds with
      | .error e => .error e
      | .ok res =>
          match f.result_class.validate res with
          | .error e => .error e
          | .ok () =>
              match with_units with
              | some true => f.result_class.ensure_units res
              | some false => f.result_class.ensure_float res
              | none => .ok res

/-- `Formula.__call__`: keyword binding followed by `compute` (with numeric evaluation of
any residual sympy expression, which is transparent on the modelled values). -/
def Formula.call (f : Formula) (with_units : Option Bool) (kwargs : List (String × Value)) :
    Except PyErr Value :=
  match f.to_keywords kwargs with
  | .error e => .error e
  | .ok kwds => f.compute kwds with_units

/-- Lexicographic comparison of character lists by code point. -/
def charListLe : List Char → List Char → Bool
  | [], _ => true
  | _ :: _, [] => false
  | a :: as, b :: bs =>
      if a.val < b.val then true
      else if b.val < a.val then false
      else charListLe as bs

/-- Python's lexicographic order on strings. -/
def strLe (a b : String) : Bool := charListLe a.data b.data

/-- Insert a string into a sorted list of strings. -/
def insertSorted (s : String) : List String → List String
  | [] => [s]
  | x :: xs => if strLe s x then s :: x :: xs else x :: insertSorted s xs

/-- Python's `sorted` on a list of strings. -/
def sortStrings (l : List String) : List String := l.foldr insertSorted []

/-- `pharmakin.utils.formula.Formulary`: registered formulas and their equations, the
parameter and symbol registries (the symbol table's keys mirror the parameter names, each
mapped to `sympy.Symbol` of itself), and the two defaultdict indices from parameter names
to formulas. -/
structure Formulary where
  formulae : List Formula
  equations : List Equation
  parameters : List (String × Parameter)
  symbols : List String
  formulas_for_parameter : List (String × List Formula)
  formulas_containing_parameter : List (String × List Formula)
deriving DecidableEq, Repr

/-- The empty formulary created at the start of `Formulary.__init__`. -/
def Formulary.empty : Formulary := ⟨[], [], [], [], [], []⟩

/-- The registered parameter names (keys of `self.parameters`). -/
def Formulary.parkeys (fry : Formulary) : List String := fry.parameters.map Prod.fst

/-- `Formulary._is_registered` on a parameter name. -/
def Formulary.is_registered (fry : Formulary) (k : String) : Bool := k ∈ fry.parkeys

/-- `Formulary.ensure_registered`: raise `RuntimeError` when any of the names is not a
registered parameter. -/
def Formulary.ensure_registered (fry : Formulary) (pars : List String) : Except PyErr Unit :=
  if pars.all (fun k => fry.is_registered k) then .ok () else .error .runtimeError

/-- `Formulary.register_parameters`: register each parameter in turn, raising
`RuntimeError` at the first duplicate (parameters registered before the failing one remain
registered). -/
def Formulary.register_parameters (fry : Formulary) : List Parameter → Formulary × Option PyErr
  | [] => (fry, none)
  | p :: rest =>
      if fry.is_registered p.name then (fry, some .runtimeError)
      else
        Formulary.register_parameters
          { fry with
              parameters := fry.parameters ++ [(p.name, p)]
              symbols := fry.symbols ++ [p.name] }
          rest

/-- Append a formula to a defaultdict-of-lists entry, creating the entry when absent. -/
def appendAt : List (String × List Formula) → String → Formula → List (String × List Formula)
  | [], k, f => [(k, [f])]
  | (k', l) :: rest, k, f =>
      if k' = k then (k', l ++ [f]) :: rest else (k', l) :: appendAt rest k f

/-- One iteration of the `Formulary.register_formulas` loop: the formula and its equation
are appended first, then `ensure_registered` is consulted (so a failing check leaves the
appended formula behind), and only on success are the two per-parameter indices updated
(`formulas_containing_parameter` once per occurrence in `inputs + [result]`). -/
def Formulary.register_formula_step (fry : Formulary) (formula : Formula) :
    Formulary × Option PyErr :=
  let fry1 := { fry with
                  formulae := fry.formulae ++ [formula]
                  equations := fry.equations ++ [formula.eq] }
  let formula_for := formula.result_class.name
  let vars_ := formula.inputs ++ [formula_for]
  match fry1.ensure_registered vars_ with
  | .error e => (fry1, some e)
  | .ok () =>
      let fry2 := { fry1 with
                      formulas_for_parameter :=
                        appendAt fry1.formulas_for_parameter formula_for formula }
      let fry3 := { fry2 with
                      formulas_containing_parameter :=
                        vars_.foldl (fun m v => appendAt m v formula)
                          fry2.formulas_containing_parameter }
      (fry3, none)

/-- `Formulary.register_formulas`: process the formulas in order, stopping at the first
raised exception with the partially mutated formulary. -/
def Formulary.register_formulas (fry : Formulary) : List Formula → Formulary × Option PyErr
  | [] => (fry, none)
  | f :: rest =>
      match fry.register_formula_step f with
      | (fry', none) => fry'.register_formulas rest
      | (fry', some e) => (fry', some e)

/-- `Formulary.__init__`: register the parameters, then the formulas; a raised exception
aborts construction. -/
def Formulary.init (parameters : List Parameter) (formulas : List Formula) :
    Except PyErr Formulary :=
  match Formulary.empty.register_parameters parameters with
  | (_, some e) => .error e
  | (fry, none) =>
      match fry.register_formulas formulas with
      | (_, some e) => .error e
      | (fry', none) => .ok fry'

/-- The `valid_vars` predicate inside `Formulary.express_parameter`, applied to a set of
free symbols: the target must occur, and the symbols must be a subset of (with
`allow_subsets`) or exactly equal to the allowed set. -/
def validVars (target : String) (allowed : Finset String) (allow_subsets : Bool)
    (syms : Finset String) : Bool :=
  if target ∉ syms then false
  else if allow_subsets then syms ⊆ allowed
  else syms = allowed

/-- The per-equation loop of `Formulary.express_parameter`: for each registered equation
passing `valid_vars`, run `sympy.solve` and append the solution, with the loop's
`assert len(solutions) == 1` raising `AssertionError` when sympy does not return exactly
one solution. -/
def per_equation_solutions (target : String) (allowed : Finset String) (allow_subsets : Bool) :
    List Equation → Except PyErr (List Expr)
  | [] => .ok []
  | eq :: rest =>
      if validVars target allowed allow_subsets eq.syms then
        match solveEq eq target with
        | some s =>
            match per_equation_solutions target allowed allow_subsets rest with
            | .ok l => .ok (s :: l)
            | .error e => .error e
        | none => .error .assertionError
      else per_equation_solutions target allowed allow_subsets rest

/-- `Formulary.express_parameter`: look up the target and given symbols (a `KeyError` for
unregistered names), reject a target that is among the given variables (`ValueError`), run
the per-equation loop, and if it produced nothing, solve the entire system and keep the
solution branches passing `valid_vars`. -/
def Formulary.express_parameter (fry : Formulary) (parameter : Parameter)
    (given : List String) (allow_subsets : Bool) : Except PyErr (List Expr) :=
  if parameter.name ∉ fry.symbols then .error .keyError
  else if given.any (fun x => x ∉ fry.symbols) then .error .keyError
  else if parameter.name ∈ given then .error .valueError
  else
    let allowed : Finset String := insert parameter.name given.toFinset
    match per_equation_solutions parameter.name allowed allow_subsets fry.equations with
    | .error e => .error e
    | .ok res =>
        if res.isEmpty then
          .ok ((solveSystem fry.equations parameter.name).filter
                (fun solution => validVars parameter.name allowed allow_subsets solution.syms))
        else .ok res

/-- `Formulary.determine_parameter` (`pharmakin/utils/formula.py`): validate unit
consistency of the keyword arguments, express the target in terms of the sorted keyword
names with `allow_subsets=True`, require exactly one resulting expression (`RuntimeError`
otherwise), lambdify it, call it on the keyword arguments restricted to the expression's
symbols, and validate the result before returning it.  The known values are passed to the
compiled expression exactly as given. -/
def Formulary.determine_parameter (fry : Formulary) (parameter : Parameter)
    (kwargs : List (String × Value)) : Except PyErr Value :=
  match Formula.validate_input kwargs with
  | .error e => .error e
  | .ok () =>
      let vars_ := sortStrings (kwargs.map Prod.fst)
      match fry.express_parameter parameter vars_ true with
      | .error e => .error e
      | .ok exprs =>
          match exprs with
          | [result_expr] =>
              let kwds := kwargs.filter (fun kv => kv.1 ∈ result_expr.syms)
              match lambdifyCall result_expr kwds with
              | .error e => .error e
              | .ok res =>
                  match parameter.validate res with
                  | .error e => .error e
                  | .ok () => .ok res
          | _ => .error .runtimeError

/-- `pharmakin.utils.registry.Formulary`: the legacy formulary (no per-parameter indices).
Only the fields consumed by `determine_parameter` are carried. -/
structure RegistryFormulary where
  formulae : List Formula
  equations : List Equation
  parameters : List (String × Parameter)
  symbols : List String
deriving DecidableEq, Repr

/-- `Formulary.determine_parameter` (`pharmakin/utils/registry.py`): its first statement
is `Formula.validate_input(kwargs)`, but the `Formula` class imported there comes from
`pharmakin/utils/formulas.py`, which declares `validate_input` as an instance method
`(self, kwds)` with no `@staticmethod` (unlike `pharmakin/utils/formula.py`).  The call
through the class therefore binds the keyword dict to `self` and leaves the required
`kwds` parameter without a value, so every invocation raises `TypeError` before any unit
stripping, solving, unit attaching, or validation is reached. -/
def RegistryFormulary.determine_parameter (_fry : RegistryFormulary)
    (_parameter : Parameter) (_kwargs : List (String × Value)) : Except PyErr Value :=
  .error .typeError

/-! ### Concrete instances

The units, parameters and formulas below mirror `pharmakin/utils/parameters.py` and
`pharmakin/formulas.py` (`dose`, `auc`, `clearance` with `clearance = dose / auc`) and are
used as witness inputs for the theorems. -/

/-- Gram, the canonical mass unit (`Dim.MASS`). -/
def gU : PintUnit := ⟨1, 0, 0, Frac.ofInt 1⟩

/-- Milligram: same dimension as gram, factor 1/1000. -/
def mgU : PintUnit := ⟨1, 0, 0, ⟨1, 1000⟩⟩

/-- Millilitre per hour, the canonical clearance unit (`Dim.VOLUME / Dim.TIME`). -/
def clearanceU : PintUnit := ⟨0, 1, -1, Frac.ofInt 1⟩

/-- The canonical AUC unit (`Dim.MASS / Dim.VOLUME * Dim.TIME`). -/
def aucU : PintUnit := ⟨1, -1, 1, Frac.ofInt 1⟩

/-- The `dose` parameter class. -/
def doseP : Parameter := ⟨"dose", gU, Frac.ofInt 0, none⟩

/-- The `auc` parameter class. -/
def aucP : Parameter := ⟨"auc", aucU, Frac.ofInt 0, none⟩

/-- The `clearance` parameter class. -/
def clearanceP : Parameter := ⟨"clearance", clearanceU, Frac.ofInt 0, none⟩

/-- The function underlying `clearence_from_dose_auc`: `dose / auc`. -/
def clearanceFunc : PyFunc := ⟨["dose", "auc"], .div (.sym "dose") (.sym "auc")⟩

/-- The registered formula `clearance = dose / auc`. -/
def clearanceFormula : Formula := ⟨clearanceFunc, clearanceP⟩

/-- A second, independent formula computing `clearance` from the same inputs
(`dose - auc`), used to exhibit ambiguity. -/
def clearanceFormula2 : Formula := ⟨⟨["dose", "auc"], .sub (.sym "dose") (.sym "auc")⟩, clearanceP⟩

/-- A formula expressing `clearance` from `dose` alone (a proper subset of the inputs). -/
def clearanceFromDose : Formula := ⟨⟨["dose"], .sym "dose"⟩, clearanceP⟩

/-- The formulary holding `dose`, `auc`, `clearance` and `clearance = dose / auc`. -/
def fry1 : Formulary :=
  ((Formulary.empty.register_parameters [doseP, aucP, clearanceP]).1.register_formulas
    [clearanceFormula]).1

/-- A formulary with one exact-match equation and one proper-subset equation for
`clearance`. -/
def fryExactSubset : Formulary :=
  ((Formulary.empty.register_parameters [doseP, aucP, clearanceP]).1.register_formulas
    [clearanceFormula, clearanceFromDose]).1

/-- A formulary with two formulas expressing `clearance` from the same exact variable
set. -/
def fryAmbiguous : Formulary :=
  ((Formulary.empty.register_parameters [doseP, aucP, clearanceP]).1.register_formulas
    [clearanceFormula, clearanceFormula2]).1

/-- A formulary whose only equation does not mention `clearance` at all. -/
def fryNoClearance : Formulary :=
  ((Formulary.empty.register_parameters [doseP, aucP, clearanceP]).1.register_formulas
    [⟨⟨["auc"], .sym "auc"⟩, doseP⟩]).1

/-- The legacy-formulary counterpart of `fry1`. -/
def regFry1 : RegistryFormulary :=
  ⟨fry1.formulae, fry1.equations, fry1.parameters, fry1.symbols⟩

/-! ### Helper lemmas -/

/-- Run `sympy.solve` on each equation of a list, failing like the loop's assertion when
some equation yields no solution. -/
def solveAll (t : String) : List Equation → Except PyErr (List Expr)
  | [] => .ok []
  | eq :: rest =>
      match solveEq eq t with
      | some s =>
          match solveAll t rest with
          | .ok l => .ok (s :: l)
          | .error e => .error e
      | none => .error .assertionError

theorem per_equation_solutions_eq_filter (t : String) (allowed : Finset String) (s : Bool)
    (eqs : List Equation) :
    per_equation_solutions t allowed s eqs =
      solveAll t (eqs.filter (fun eq => validVars t allowed s eq.syms)) := by
  induction eqs with
  | nil => rfl
  | cons e rest ih =>
      by_cases h : validVars t allowed s e.syms
      · simp [per_equation_solutions, h, List.filter_cons, solveAll, ih]
      · simp [per_equation_solutions, h, List.filter_cons, ih]

theorem solveAll_single (t : String) (e : Equation) (x : Expr) (h : solveEq e t = some x) :
    solveAll t [e] = .ok [x] := by
  simp [solveAll, h]

theorem solveAll_pair (t : String) (e1 e2 : Equation) (x1 x2 : Expr)
    (h1 : solveEq e1 t = some x1) (h2 : solveEq e2 t = some x2) :
    solveAll t [e1, e2] = .ok [x1, x2] := by
  simp [solveAll, h1, h2]

theorem isolate_not_mem (t : String) :
    ∀ (e rhs : Expr), t ∉ rhs.syms → ∀ s, isolate e rhs t = some s → t ∉ s.syms := by
  intro e
  induction e with
  | sym a =>
      intro rhs hr s hs
      by_cases h : a = t
      · simp only [isolate, h, if_true, Option.some.injEq] at hs
        exact hs ▸ hr
      · simp [isolate, h] at hs
  | num q => intro rhs hr s hs; simp [isolate] at hs
  | add a b iha ihb =>
      intro rhs hr s hs
      simp only [isolate] at hs
      split at hs
      · rename_i hcond
        have hb : t ∉ b.syms := by
          rcases Bool.and_eq_true_iff.mp hcond with ⟨_, h2⟩
          simpa using h2
        exact iha (Expr.sub rhs b) (by simp [Expr.syms, hr, hb]) s hs
      · split at hs
        · rename_i hcond
          have ha : t ∉ a.syms := by
            rcases Bool.and_eq_true_iff.mp hcond with ⟨_, h2⟩
            simpa using h2
          exact ihb (Expr.sub rhs a) (by simp [Expr.syms, hr, ha]) s hs
        · exact absurd hs (by simp)
  | sub a b iha ihb =>
      intro rhs hr s hs
      simp only [isolate] at hs
      split at hs
      · rename_i hcond
        have hb : t ∉ b.syms := by
          rcases Bool.and_eq_true_iff.mp hcond with ⟨_, h2⟩
          simpa using h2
        exact iha (Expr.add rhs b) (by simp [Expr.syms, hr, hb]) s hs
      · split at hs
        · rename_i hcond
          have ha : t ∉ a.syms := by
            rcases Bool.and_eq_true_iff.mp hcond with ⟨_, h2⟩
            simpa using h2
          exact ihb (Expr.sub a rhs) (by simp [Expr.syms, hr, ha]) s hs
        · exact absurd hs (by simp)
  | mul a b iha ihb =>
      intro rhs hr s hs
      simp only [isolate] at hs
      split at hs
      · rename_i hcond
        have hb : t ∉ b.syms := by
          rcases Bool.and_eq_true_iff.mp hcond with ⟨_, h2⟩
          simpa using h2
        exact iha (Expr.div rhs b) (by simp [Expr.syms, hr, hb]) s hs
      · split at hs
        · rename_i hcond
          have ha : t ∉ a.syms := by
            rcases Bool.and_eq_true_iff.mp hcond with ⟨_, h2⟩
            simpa using h2
          exact ihb (Expr.div rhs a) (by simp [Expr.syms, hr, ha]) s hs
        · exact absurd hs (by simp)
  | div a b iha ihb =>
      intro rhs hr s hs
      simp only [isolate] at hs
      split at hs
      · rename_i hcond
        have hb : t ∉ b.syms := by
          rcases Bool.and_eq_true_iff.mp hcond with ⟨_, h2⟩
          simpa using h2
        exact iha (Expr.mul rhs b) (by simp [Expr.syms, hr, hb]) s hs
      · split at hs
        · rename_i hcond
          have ha : t ∉ a.syms := by
            rcases Bool.and_eq_true_iff.mp hcond with ⟨_, h2⟩
            simpa using h2
          exact ihb (Expr.div a rhs) (by simp [Expr.syms, hr, ha]) s hs
        · exact absurd hs (by simp)

theorem solveEq_not_mem (eq : Equation) (t : String) (s : Expr)
    (h : solveEq eq t = some s) : t ∉ s.syms := by
  simp only [solveEq] at h
  split at h
  · rename_i hcond
    have hr : t ∉ eq.rhs.syms := by
      rcases Bool.and_eq_true_iff.mp hcond with ⟨_, h2⟩
      simpa using h2
    exact isolate_not_mem t eq.lhs eq.rhs hr s h
  · split at h
    · rename_i hcond
      have hl : t ∉ eq.lhs.syms := by
        rcases Bool.and_eq_true_iff.mp hcond with ⟨_, h2⟩
        simpa using h2
      exact isolate_not_mem t eq.rhs eq.lhs hl s h
    · exact absurd h (by simp)

theorem fallback_filter_nil (eqs : List Equation) (t : String) (allowed : Finset String)
    (subs : Bool) :
    (solveSystem eqs t).filter (fun sol => validVars t allowed subs sol.syms) = [] := by
  rw [List.filter_eq_nil_iff]
  intro sol hsol
  rw [solveSystem, List.mem_filterMap] at hsol
  obtain ⟨eq, _, heq⟩ := hsol
  have := solveEq_not_mem eq t sol heq
  simp [validVars, this]

theorem mem_insertSorted (a s : String) (l : List String) :
    a ∈ insertSorted s l ↔ a = s ∨ a ∈ l := by
  induction l with
  | nil => simp [insertSorted]
  | cons x xs ih =>
      by_cases h : strLe s x
      · simp [insertSorted, h]
      · simp only [insertSorted, h, if_false, List.mem_cons, ih, Bool.false_eq_true]
        tauto

theorem mem_sortStrings (a : String) (l : List String) : a ∈ sortStrings l ↔ a ∈ l := by
  induction l with
  | nil => simp [sortStrings]
  | cons x xs ih =>
      simp only [sortStrings, List.foldr_cons] at ih ⊢
      rw [mem_insertSorted, ih, List.mem_cons]

theorem toFinset_sortStrings (l : List String) : (sortStrings l).toFinset = l.toFinset := by
  apply Finset.ext
  intro a
  simp [List.mem_toFinset, mem_sortStrings]

theorem filterMap_congr_mem {α β : Type} (l : List α) (f g : α → Option β)
    (h : ∀ a ∈ l, f a = g a) : l.filterMap f = l.filterMap g := by
  induction l with
  | nil => rfl
  | cons x xs ih =>
      simp only [List.filterMap_cons, h x (List.mem_cons_self x xs)]
      rw [ih (fun a ha => h a (List.mem_cons_of_mem x ha))]

theorem filterMap_lookup_self : ∀ (kwargs : List (String × Value)),
    (kwargs.map Prod.fst).Nodup →
    (kwargs.map Prod.fst).filterMap
      (fun k => (lookupKey kwargs k).map (fun v => (k, v))) = kwargs := by
  intro kwargs
  induction kwargs with
  | nil => intro _; rfl
  | cons kv rest ih =>
      intro hnd
      rw [List.map_cons, List.nodup_cons] at hnd
      obtain ⟨hhead, htail⟩ := hnd
      have h1 : lookupKey (kv :: rest) kv.1 = some kv.2 := by simp [lookupKey]
      simp only [List.map_cons, List.filterMap_cons, h1, Option.map_some]
      have hcong : ∀ k ∈ rest.map Prod.fst,
          (fun k => (lookupKey (kv :: rest) k).map (fun v => (k, v))) k =
            (fun k => (lookupKey rest k).map (fun v => (k, v))) k := by
        intro k hk
        have hne : ¬ kv.1 = k := fun h => hhead (h ▸ hk)
        simp [lookupKey, hne]
      rw [filterMap_congr_mem _ _ _ hcong, ih htail]
      rfl

theorem filter_keys_self (kwargs : List (String × Value)) (s : Finset String)
    (h : ∀ k ∈ kwargs.map Prod.fst, k ∈ s) :
    kwargs.filter (fun kv => kv.1 ∈ s) = kwargs := by
  rw [List.filter_eq_self]
  intro kv hkv
  simpa using h kv.1 (List.mem_map_of_mem Prod.fst hkv)

theorem lookupKey_mem {β : Type} : ∀ (l : List (String × β)) (s : String) (v : β),
    lookupKey l s = some v → (s, v) ∈ l := by
  intro l
  induction l with
  | nil => intro s v h; simp [lookupKey] at h
  | cons kv rest ih =>
      intro s v h
      cases kv with
      | mk a b =>
          by_cases he : a = s
          · simp only [lookupKey, he, if_true, Option.some.injEq] at h
            rw [← he, ← h]
            exact List.mem_cons_self (a, b) rest
          · simp only [lookupKey, he, if_false] at h
            exact List.mem_cons_of_mem (a, b) (ih s v h)

theorem express_parameter_run (fry : Formulary) (p : Parameter) (given : List String)
    (hreg : p.name ∈ fry.symbols) (hregall : ∀ k ∈ given, k ∈ fry.symbols)
    (hself : p.name ∉ given) :
    fry.express_parameter p given true =
      match per_equation_solutions p.name (insert p.name given.toFinset) true
          fry.equations with
      | .error e => .error e
      | .ok res => if res.isEmpty then .ok [] else .ok res := by
  unfold Formulary.express_parameter
  rw [if_neg (not_not_intro hreg)]
  have hany : ¬ (given.any (fun x => decide (x ∉ fry.symbols)) = true) := by
    simp only [List.any_eq_true, decide_eq_true_eq, not_exists]
    intro x
    rintro ⟨hx, hnot⟩
    exact hnot (hregall x hx)
  rw [if_neg hany]
  rw [if_neg hself]
  cases h : per_equation_solutions p.name (insert p.name given.toFinset) true fry.equations with
  | error e => simp only [h]
  | ok res => simp only [h, fallback_filter_nil]

theorem solveEq_formula (f : Formula) (hres : f.result_class.name ∉ f.rhs.syms) :
    solveEq f.eq f.result_class.name = some f.rhs := by
  have hl : f.eq.lhs = Expr.sym f.result_class.name := rfl
  simp [solveEq, hl, Expr.syms, hres, isolate, Formula.eq]

/-! ### Claim theorems -/

/-- C10: `Parameter.is_valid` (and hence `validate`) is total only over float and quantity
inputs: a bare value that is not an exact float instance (e.g. the Python int `5`) makes
the unit-compatibility check access `value.units` and raise `AttributeError` instead of
`is_valid` returning a boolean, so the bounds comparison `lower <= magnitude <= upper` is
never reached; float and quantity inputs by contrast always produce a boolean. -/
theorem is_valid_int_raises_attribute_error (p : Parameter) (n : ℤ) :
    p.is_valid (.int n) = .error .attributeError ∧
    p.validate (.int n) = .error .attributeError ∧
    (∀ q : Frac, p.is_valid (.float q) = .ok (p.inBounds q)) ∧
    (∀ (m : Frac) (u : PintUnit), ∃ b : Bool, p.is_valid (.qty m u) = .ok b) := by
  refine ⟨rfl, rfl, fun q => rfl, fun m u => ?_⟩
  by_cases hc : u.is_compatible_with p.unit = true
  · have hdims : u.dims = p.unit.dims := by
      simpa [PintUnit.is_compatible_with] using hc
    refine ⟨p.inBounds ((m.mulF u.factor).divF p.unit.factor), ?_⟩
    simp [Parameter.is_valid, Parameter.unit_is_valid, hc, Parameter.ensure_float,
      coerce_float, hdims, Value.mag]
  · refine ⟨false, ?_⟩
    simp [Parameter.is_valid, Parameter.unit_is_valid, hc]

/-- C8: for every parameter and bare in-range value, `ensure_units` attaches exactly the
parameter's canonical unit, and `ensure_float` converts back to a magnitude numerically
equal to the original value (exact equality in the rational model, hence within floating
tolerance). -/
theorem ensure_units_ensure_float_roundtrip (p : Parameter) (v : Frac)
    (hlo : p.lower.leF v = true)
    (hhi : ∀ u, p.upper = some u → v.leF u = true) :
    p.ensure_units (.float v) = .ok (.qty v p.unit) ∧
    ∃ q : Frac, p.ensure_float (.qty v p.unit) = .ok (.float q) ∧ q.eqF v = true := by
  refine ⟨rfl, (v.mulF p.unit.factor).divF p.unit.factor, ?_, ?_⟩
  · simp [Parameter.ensure_float, coerce_float]
  · unfold Frac.eqF Frac.divF Frac.mulF
    rw [decide_eq_true_eq]
    split
    · dsimp only
      ring
    · dsimp only
      ring

/-- C6: both `Formula.compute` and `Formulary.determine_parameter` run the same
unit-consistency check (`Formula.validate_input`) before any numeric evaluation: with `n`
the count of unit-carrying inputs, the check passes exactly when `n` is zero or the total
number of inputs, and any other count makes both entry points raise `RuntimeError`
regardless of the formula, the formulary, and the numeric content of the values. -/
theorem unit_consistency_gate (kwds : List (String × Value)) (f : Formula)
    (wu : Option Bool) (fry : Formulary) (p : Parameter) :
    (Formula.validate_input kwds = .ok () ↔
      ((kwds.filter (fun kv => has_units kv.2)).length = 0 ∨
        (kwds.filter (fun kv => has_units kv.2)).length = kwds.length)) ∧
    (Formula.validate_input kwds ≠ .ok () →
      Formula.validate_input kwds = .error .runtimeError ∧
      f.compute kwds wu = .error .runtimeError ∧
      fry.determine_parameter p kwds = .error .runtimeError) := by
  have hval : Formula.validate_input kwds =
      (if ((kwds.filter (fun kv => has_units kv.2)).length = 0 ∨
            (kwds.filter (fun kv => has_units kv.2)).length = kwds.length)
        then Except.ok () else Except.error PyErr.runtimeError) := rfl
  constructor
  · rw [hval]
    by_cases h : ((kwds.filter (fun kv => has_units kv.2)).length = 0 ∨
        (kwds.filter (fun kv => has_units kv.2)).length = kwds.length)
    · exact iff_of_true (if_pos h) h
    · exact iff_of_false (by rw [if_neg h]; exact fun hc => Except.noConfusion hc) h
  · intro hne
    have herr : Formula.validate_input kwds = .error .runtimeError := by
      rw [hval] at hne ⊢
      by_cases h : ((kwds.filter (fun kv => has_units kv.2)).length = 0 ∨
          (kwds.filter (fun kv => has_units kv.2)).length = kwds.length)
      · exact absurd (if_pos h) hne
      · exact if_neg h
    refine ⟨herr, ?_, ?_⟩
    · unfold Formula.compute
      simp only [herr]
    · unfold Formulary.determine_parameter
      simp only [herr]

/-- C6 witness: a bag mixing one unit-carrying and one bare input makes both `compute` and
`determine_parameter` raise `RuntimeError`. -/
theorem unit_consistency_gate_witness :
    Formula.compute clearanceFormula
        [("dose", .qty ⟨1, 1⟩ gU), ("auc", .float ⟨1, 1⟩)] none = .error .runtimeError ∧
    fry1.determine_parameter clearanceP
        [("dose", .qty ⟨1, 1⟩ gU), ("auc", .float ⟨1, 1⟩)] = .error .runtimeError := by
  have h := (unit_consistency_gate [("dose", .qty ⟨1, 1⟩ gU), ("auc", .float ⟨1, 1⟩)]
    clearanceFormula none fry1 clearanceP).2 (by decide)
  exact ⟨h.2.1, h.2.2⟩

/-- C9: when the knowns mapping contains the target parameter's own name (with unit
consistency satisfied and every name registered), `determine_parameter` raises the
`ValueError` of `express_parameter` ("Can't attempt to express ... in terms of itself");
the equations of the formulary are never consulted, as the result is this error for every
formulary with those registered symbols. -/
theorem determine_self_reference_raises (fry : Formulary) (p : Parameter)
    (kwargs : List (String × Value))
    (hv : Formula.validate_input kwargs = .ok ())
    (hreg : p.name ∈ fry.symbols)
    (hregall : ∀ k ∈ kwargs.map Prod.fst, k ∈ fry.symbols)
    (hmem : p.name ∈ kwargs.map Prod.fst) :
    fry.determine_parameter p kwargs = .error .valueError := by
  unfold Formulary.determine_parameter
  simp only [hv]
  have hexpr : fry.express_parameter p (sortStrings (kwargs.map Prod.fst)) true
      = .error .valueError := by
    unfold Formulary.express_parameter
    rw [if_neg (not_not_intro hreg)]
    have hany : ¬ ((sortStrings (kwargs.map Prod.fst)).any
        (fun x => decide (x ∉ fry.symbols)) = true) := by
      simp only [List.any_eq_true, decide_eq_true_eq, not_exists]
      intro x
      rintro ⟨hx, hnot⟩
      exact hnot (hregall x ((mem_sortStrings x _).mp hx))
    rw [if_neg hany]
    rw [if_pos ((mem_sortStrings _ _).mpr hmem)]
  simp only [hexpr]

/-- C9 witness: asking `fry1` to determine `clearance` while supplying a value for
`clearance` itself raises `ValueError`. -/
theorem determine_self_reference_raises_witness :
    fry1.determine_parameter clearanceP
      [("auc", .float ⟨17, 10⟩), ("clearance", .float ⟨1, 1⟩)] = .error .valueError :=
  determine_self_reference_raises fry1 clearanceP
    [("auc", .float ⟨17, 10⟩), ("clearance", .float ⟨1, 1⟩)]
    (by decide) (by decide) (by decide) (by decide)

/-- C3: `determine_parameter` demands exactly one final candidate expression: whenever the
solution passes produce a list whose length is not one (no candidate, or several distinct
derivations), it raises `RuntimeError` ("Could not express ... uniquely" — the raise
realising both the spec's UnsolvableError and its AmbiguousSolutionError) and never
evaluates any candidate numerically nor returns one of several derivations. -/
theorem determine_requires_unique_candidate (fry : Formulary) (p : Parameter)
    (kwargs : List (String × Value)) (l : List Expr)
    (hv : Formula.validate_input kwargs = .ok ())
    (hexpr : fry.express_parameter p (sortStrings (kwargs.map Prod.fst)) true = .ok l)
    (hlen : l.length ≠ 1) :
    fry.determine_parameter p kwargs = .error .runtimeError := by
  unfold Formulary.determine_parameter
  simp only [hv, hexpr]
  cases l with
  | nil => rfl
  | cons e rest =>
      cases rest with
      | nil => exact absurd rfl hlen
      | cons e2 rest2 => rfl

/-- C3 witness: in a formulary whose only equation never mentions `clearance` the solution
passes yield zero candidates, and `determine_parameter` raises `RuntimeError`. -/
theorem determine_requires_unique_candidate_witness :
    fryNoClearance.determine_parameter clearanceP
      [("auc", .float ⟨17, 10⟩), ("dose", .float ⟨1, 2⟩)] = .error .runtimeError :=
  determine_requires_unique_candidate fryNoClearance clearanceP
    [("auc", .float ⟨17, 10⟩), ("dose", .float ⟨1, 2⟩)] []
    (by decide) (by decide) (by decide)

/-- C8 witness: the round trip at `dose` with the in-range value 5. -/
theorem ensure_units_ensure_float_roundtrip_witness :
    doseP.ensure_units (.float ⟨5, 1⟩) = .ok (.qty ⟨5, 1⟩ doseP.unit) ∧
    ∃ q : Frac, doseP.ensure_float (.qty ⟨5, 1⟩ doseP.unit) = .ok (.float q) ∧
      q.eqF ⟨5, 1⟩ = true :=
  ensure_units_ensure_float_roundtrip doseP ⟨5, 1⟩ (by decide)
    (fun u hu => Option.noConfusion hu)

/-- A Python function declaring two inputs but using only the first one. -/
def ignoreFunc : PyFunc := ⟨["dose", "auc"], .sym "dose"⟩

/-- C7 counterexample: for the formula built from a function that ignores its declared
input `auc`, the stored equation's free variables are {clearance, dose}, a proper subset
of {result} ∪ {inputs} — the claimed exact equality fails. -/
theorem formula_free_vars_counterexample :
    (Formula.mk ignoreFunc clearanceP).eq.syms
        ≠ insert (Formula.mk ignoreFunc clearanceP).result_class.name
            (Formula.mk ignoreFunc clearanceP).inputs.toFinset ∧
    (Formula.mk ignoreFunc clearanceP).eq.syms = {"clearance", "dose"} ∧
    (Formula.mk ignoreFunc clearanceP).inputs = ["dose", "auc"] := by decide

/-- C7 (amended): the equation is derived by invoking the function once with one fresh
symbolic placeholder per declared input, the inputs are the function's declared parameter
names in declared order, and the equation's free variables are exactly {result} ∪ (the
symbols of the function's symbolic result) — always a subset of {result} ∪ {inputs}, with
equality precisely when the symbolic result mentions every declared input. -/
theorem formula_free_vars (f : Formula)
    (hbody : f.func.body.syms ⊆ f.func.params.toFinset) :
    f.rhs = convert_to_sympy_expression f.func ∧
    f.inputs = f.func.params ∧
    f.eq.syms = insert f.result_class.name f.rhs.syms ∧
    f.eq.syms ⊆ insert f.result_class.name f.inputs.toFinset ∧
    (f.inputs.toFinset ⊆ f.rhs.syms →
      f.eq.syms = insert f.result_class.name f.inputs.toFinset) := by
  have h1 : f.eq.syms = insert f.result_class.name f.rhs.syms := by
    show Expr.syms (.sym f.result_class.name) ∪ f.rhs.syms = _
    rw [Expr.syms, ← Finset.insert_eq]
  refine ⟨rfl, rfl, h1, ?_, ?_⟩
  · rw [h1]
    exact Finset.insert_subset_insert _ hbody
  · intro hsub
    rw [h1]
    exact Finset.Subset.antisymm (Finset.insert_subset_insert _ hbody)
      (Finset.insert_subset_insert _ hsub)

/-- C7 witness: the `clearance = dose / auc` formula uses both declared inputs, so its
equation's free variables are exactly {clearance, dose, auc}. -/
theorem formula_free_vars_witness :
    clearanceFormula.eq.syms
      = insert clearanceFormula.result_class.name clearanceFormula.inputs.toFinset :=
  (formula_free_vars clearanceFormula (by decide)).2.2.2.2 (by decide)

/-- C4 counterexample: registering the `clearance` formula into an empty formulary (no
parameter registered) raises, yet the formulary is left holding the formula and its
equation. -/
theorem register_formulas_partial_mutation :
    (Formulary.empty.register_formulas [clearanceFormula]).2 = some .runtimeError ∧
    (Formulary.empty.register_formulas [clearanceFormula]).1.formulae = [clearanceFormula] ∧
    (Formulary.empty.register_formulas [clearanceFormula]).1.equations
      = [clearanceFormula.eq] := by decide

/-- The registration check `is_registered` reads only the parameter registry, which the
appends of `register_formulas` do not touch. -/
theorem is_registered_after_append (fry : Formulary) (f : Formula) (k : String) :
    ({ fry with
        formulae := fry.formulae ++ [f]
        equations := fry.equations ++ [f.eq] } : Formulary).is_registered k
      = fry.is_registered k := rfl

/-- C4 (amended): `register_formulas` called with a formula whose result or an input name
is unregistered raises `RuntimeError` and leaves the parameter registry, the symbol table
and both per-parameter indices unchanged — but the formula and its equation have already
been appended to the `formulae` and `equations` lists when the check fires, so those two
lists are mutated. -/
theorem register_formulas_unregistered (fry : Formulary) (f : Formula)
    (h : ¬ ((f.inputs ++ [f.result_class.name]).all
        (fun k => fry.is_registered k)) = true) :
    fry.register_formulas [f] =
      ({ fry with
          formulae := fry.formulae ++ [f]
          equations := fry.equations ++ [f.eq] }, some .runtimeError) := by
  unfold Formulary.register_formulas Formulary.register_formula_step
  have hens : Formulary.ensure_registered
      { fry with
          formulae := fry.formulae ++ [f]
          equations := fry.equations ++ [f.eq] }
      (f.inputs ++ [f.result_class.name]) = .error .runtimeError := by
    unfold Formulary.ensure_registered
    simp only [is_registered_after_append]
    exact if_neg h
  simp only [hens]

/-- C4 witness: the amended statement at the empty formulary and the clearance formula. -/
theorem register_formulas_unregistered_witness :
    Formulary.empty.register_formulas [clearanceFormula] =
      ({ Formulary.empty with
          formulae := Formulary.empty.formulae ++ [clearanceFormula]
          equations := Formulary.empty.equations ++ [clearanceFormula.eq] },
        some .runtimeError) :=
  register_formulas_unregistered Formulary.empty clearanceFormula (by decide)

/-- C1 counterexample: in `fryExactSubset` exactly one registered equation's free-variable
set equals {clearance} ∪ {auc, dose} (the isolatable `clearance = dose / auc` relation),
while a second equation's free set {clearance, dose} is a proper subset containing the
target; `determine_parameter` raises `RuntimeError` instead of using the exact-match
solution. -/
theorem exact_and_subset_match_counterexample :
    (fryExactSubset.equations.filter
        (fun eq => eq.syms = insert "clearance" (["auc", "dose"].toFinset))).length = 1 ∧
    (solveEq clearanceFormula.eq "clearance").isSome = true ∧
    clearanceFromDose.eq.syms ⊂ insert "clearance" (["auc", "dose"].toFinset) ∧
    "clearance" ∈ clearanceFromDose.eq.syms ∧
    (solveEq clearanceFromDose.eq "clearance").isSome = true ∧
    fryExactSubset.determine_parameter clearanceP
      [("auc", .float ⟨17, 10⟩), ("dose", .float ⟨1, 2⟩)] = .error .runtimeError := by
  decide

/-- C1 (amended): `determine_parameter` consults exact-match and proper-subset equations
in one single pass — an equation is a candidate iff its free-variable set contains the
target and is a subset of {target} ∪ keys(known) — and exact matches get no priority:
whenever the candidate filter selects an exact-match equation together with a
proper-subset equation (both isolatable), two candidate expressions result and
`RuntimeError` (the AmbiguousSolutionError raise) follows instead of the exact-match
solution's value being returned. -/
theorem determine_single_pass_no_exact_priority (fry : Formulary) (p : Parameter)
    (kwargs : List (String × Value)) (e1 e2 : Equation)
    (hv : Formula.validate_input kwargs = .ok ())
    (hreg : p.name ∈ fry.symbols)
    (hregall : ∀ k ∈ kwargs.map Prod.fst, k ∈ fry.symbols)
    (hself : p.name ∉ kwargs.map Prod.fst)
    (hfil : fry.equations.filter
        (fun eq => validVars p.name (insert p.name (kwargs.map Prod.fst).toFinset) true
          eq.syms) = [e1, e2])
    (hexact : e1.syms = insert p.name (kwargs.map Prod.fst).toFinset)
    (hsub : e2.syms ⊂ insert p.name (kwargs.map Prod.fst).toFinset)
    (hs1 : (solveEq e1 p.name).isSome = true)
    (hs2 : (solveEq e2 p.name).isSome = true) :
    fry.determine_parameter p kwargs = .error .runtimeError := by
  obtain ⟨x1, hx1⟩ := Option.isSome_iff_exists.mp hs1
  obtain ⟨x2, hx2⟩ := Option.isSome_iff_exists.mp hs2
  have hexpr : fry.express_parameter p (sortStrings (kwargs.map Prod.fst)) true
      = .ok [x1, x2] := by
    rw [express_parameter_run fry p _ hreg
      (fun k hk => hregall k ((mem_sortStrings k _).mp hk))
      (fun hmem => hself ((mem_sortStrings _ _).mp hmem))]
    rw [toFinset_sortStrings, per_equation_solutions_eq_filter, hfil,
      solveAll_pair p.name e1 e2 x1 x2 hx1 hx2]
    rfl
  unfold Formulary.determine_parameter
  simp only [hv, hexpr]

/-- C1 witness: the amended statement at `fryExactSubset`, with the exact-match
`clearance = dose / auc` equation and the proper-subset `clearance = dose` equation. -/
theorem determine_single_pass_no_exact_priority_witness :
    fryExactSubset.determine_parameter clearanceP
      [("dose", .float ⟨1, 2⟩), ("auc", .float ⟨17, 10⟩)] = .error .runtimeError :=
  determine_single_pass_no_exact_priority fryExactSubset clearanceP
    [("dose", .float ⟨1, 2⟩), ("auc", .float ⟨17, 10⟩)]
    clearanceFormula.eq clearanceFromDose.eq
    (by decide) (by decide) (by decide) (by decide) (by decide) (by decide) (by decide)
    (by decide) (by decide)

/-- C5 counterexample: `clearance = dose / auc` is registered in `fryAmbiguous`, its
direct invocation on in-range values returns 10/34, but `determine_parameter` on the same
values raises `RuntimeError` (a second independent formula shares the variable set), so
determine does not return the value of the direct invocation. -/
theorem determine_vs_direct_call_counterexample :
    clearanceFormula ∈ fryAmbiguous.formulae ∧
    clearanceFormula.call none [("dose", .float ⟨1, 2⟩), ("auc", .float ⟨17, 10⟩)]
      = .ok (.float ⟨10, 34⟩) ∧
    fryAmbiguous.determine_parameter clearanceP
      [("dose", .float ⟨1, 2⟩), ("auc", .float ⟨17, 10⟩)] = .error .runtimeError := by
  decide

/-- C5 (amended): for a registered formula whose equation is the unique candidate of the
solution pass (no other registered equation's free-variable set is an admissible subset of
{result} ∪ {inputs}), with the knowns supplied exactly for the formula's inputs,
`determine_parameter` returns exactly what the direct invocation of the formula returns —
the same value, and the same exception when one is raised. -/
theorem determine_refines_formula_call (fry : Formulary) (f : Formula)
    (kwargs : List (String × Value))
    (hkeys : kwargs.map Prod.fst = f.inputs)
    (hnodup : f.inputs.Nodup)
    (hsyms : f.rhs.syms = f.inputs.toFinset)
    (hres : f.result_class.name ∉ f.inputs)
    (hreg : f.result_class.name ∈ fry.symbols)
    (hregall : ∀ k ∈ f.inputs, k ∈ fry.symbols)
    (hfil : fry.equations.filter
        (fun eq => validVars f.result_class.name
          (insert f.result_class.name f.inputs.toFinset) true eq.syms) = [f.eq]) :
    fry.determine_parameter f.result_class kwargs = f.call none kwargs := by
  have htk : f.to_keywords kwargs = .ok kwargs := by
    unfold Formula.to_keywords
    rw [if_pos ⟨by rw [hkeys], by rw [hkeys]; exact hnodup⟩]
    rw [← hkeys, filterMap_lookup_self kwargs (by rw [hkeys]; exact hnodup)]
  have hsev : solveEq f.eq f.result_class.name = some f.rhs :=
    solveEq_formula f (by
      rw [hsyms]
      exact fun hc => hres (List.mem_toFinset.mp hc))
  have hexpr : fry.express_parameter f.result_class (sortStrings (kwargs.map Prod.fst))
      true = .ok [f.rhs] := by
    rw [express_parameter_run _ _ _ hreg
      (fun k hk => hregall k (by
        rw [← hkeys]
        exact (mem_sortStrings k _).mp hk))
      (fun hmem => hres (by
        rw [← hkeys]
        exact (mem_sortStrings _ _).mp hmem))]
    rw [toFinset_sortStrings, hkeys, per_equation_solutions_eq_filter, hfil,
      solveAll_single f.result_class.name f.eq f.rhs hsev]
    rfl
  have hflt : kwargs.filter (fun kv => kv.1 ∈ f.rhs.syms) = kwargs :=
    filter_keys_self kwargs f.rhs.syms (fun k hk => by
      rw [hsyms]
      exact List.mem_toFinset.mpr (by
        rw [← hkeys]
        exact hk))
  unfold Formulary.determine_parameter Formula.call
  rw [htk]
  unfold Formula.compute
  cases hv : Formula.validate_input kwargs with
  | error e => simp only [hv]
  | ok u =>
      cases u
      simp only [hv, hexpr, hflt]

/-- C5 witness: in the single-formula formulary `fry1`, determine on the formula's inputs
equals the direct invocation. -/
theorem determine_refines_formula_call_witness :
    fry1.determine_parameter clearanceFormula.result_class
        [("dose", .float ⟨1, 2⟩), ("auc", .float ⟨17, 10⟩)]
      = clearanceFormula.call none [("dose", .float ⟨1, 2⟩), ("auc", .float ⟨17, 10⟩)] :=
  determine_refines_formula_call fry1 clearanceFormula
    [("dose", .float ⟨1, 2⟩), ("auc", .float ⟨17, 10⟩)]
    (by decide) (by decide) (by decide) (by decide) (by decide)
    (by decide) (by decide)

theorem addV_bare (x y v : Value) (hx : x.isBare = true) (hy : y.isBare = true)
    (h : x.addV y = .ok v) : v.isBare = true := by
  cases x with
  | qty m u => exact absurd hx (by simp [Value.isBare])
  | int a =>
      cases y with
      | qty m u => exact absurd hy (by simp [Value.isBare])
      | int b => simp only [Value.addV, Except.ok.injEq] at h; rw [← h]; rfl
      | float b => simp only [Value.addV, Except.ok.injEq] at h; rw [← h]; rfl
  | float a =>
      cases y with
      | qty m u => exact absurd hy (by simp [Value.isBare])
      | int b => simp only [Value.addV, Except.ok.injEq] at h; rw [← h]; rfl
      | float b => simp only [Value.addV, Except.ok.injEq] at h; rw [← h]; rfl

theorem subV_bare (x y v : Value) (hx : x.isBare = true) (hy : y.isBare = true)
    (h : x.subV y = .ok v) : v.isBare = true := by
  cases x with
  | qty m u => exact absurd hx (by simp [Value.isBare])
  | int a =>
      cases y with
      | qty m u => exact absurd hy (by simp [Value.isBare])
      | int b => simp only [Value.subV, Except.ok.injEq] at h; rw [← h]; rfl
      | float b => simp only [Value.subV, Except.ok.injEq] at h; rw [← h]; rfl
  | float a =>
      cases y with
      | qty m u => exact absurd hy (by simp [Value.isBare])
      | int b => simp only [Value.subV, Except.ok.injEq] at h; rw [← h]; rfl
      | float b => simp only [Value.subV, Except.ok.injEq] at h; rw [← h]; rfl

theorem mulV_bare (x y v : Value) (hx : x.isBare = true) (hy : y.isBare = true)
    (h : x.mulV y = .ok v) : v.isBare = true := by
  cases x with
  | qty m u => exact absurd hx (by simp [Value.isBare])
  | int a =>
      cases y with
      | qty m u => exact absurd hy (by simp [Value.isBare])
      | int b => simp only [Value.mulV, Except.ok.injEq] at h; rw [← h]; rfl
      | float b => simp only [Value.mulV, Except.ok.injEq] at h; rw [← h]; rfl
  | float a =>
      cases y with
      | qty m u => exact absurd hy (by simp [Value.isBare])
      | int b => simp only [Value.mulV, Except.ok.injEq] at h; rw [← h]; rfl
      | float b => simp only [Value.mulV, Except.ok.injEq] at h; rw [← h]; rfl

theorem divV_bare (x y v : Value) (hx : x.isBare = true) (hy : y.isBare = true)
    (h : x.divV y = .ok v) : v.isBare = true := by
  cases x with
  | qty m u => exact absurd hx (by simp [Value.isBare])
  | int a =>
      cases y with
      | qty m u => exact absurd hy (by simp [Value.isBare])
      | int b =>
          simp only [Value.divV] at h
          split at h
          · exact absurd h (by simp)
          · simp only [Except.ok.injEq] at h; rw [← h]; rfl
      | float b =>
          simp only [Value.divV] at h
          split at h
          · exact absurd h (by simp)
          · simp only [Except.ok.injEq] at h; rw [← h]; rfl
  | float a =>
      cases y with
      | qty m u => exact absurd hy (by simp [Value.isBare])
      | int b =>
          simp only [Value.divV] at h
          split at h
          · exact absurd h (by simp)
          · simp only [Except.ok.injEq] at h; rw [← h]; rfl
      | float b =>
          simp only [Value.divV] at h
          split at h
          · exact absurd h (by simp)
          · simp only [Except.ok.injEq] at h; rw [← h]; rfl

theorem evalExpr_bare (env : String → Option Value)
    (henv : ∀ s v, env s = some v → v.isBare = true) :
    ∀ (e : Expr) (v : Value), evalExpr e env = .ok v → v.isBare = true := by
  intro e
  induction e with
  | num q =>
      intro v h
      simp only [evalExpr, Except.ok.injEq] at h
      rw [← h]; rfl
  | sym s =>
      intro v h
      simp only [evalExpr] at h
      cases hs : env s with
      | none => rw [hs] at h; exact absurd h (by simp)
      | some w =>
          rw [hs] at h
          simp only [Except.ok.injEq] at h
          rw [← h]
          exact henv s w hs
  | add a b iha ihb =>
      intro v h
      simp only [evalExpr] at h
      cases ha : evalExpr a env with
      | error e1 => rw [ha] at h; exact absurd h (by simp)
      | ok x =>
          rw [ha] at h
          cases hb : evalExpr b env with
          | error e2 => rw [hb] at h; exact absurd h (by simp)
          | ok y =>
              rw [hb] at h
              exact addV_bare x y v (iha x ha) (ihb y hb) h
  | sub a b iha ihb =>
      intro v h
      simp only [evalExpr] at h
      cases ha : evalExpr a env with
      | error e1 => rw [ha] at h; exact absurd h (by simp)
      | ok x =>
          rw [ha] at h
          cases hb : evalExpr b env with
          | error e2 => rw [hb] at h; exact absurd h (by simp)
          | ok y =>
              rw [hb] at h
              exact subV_bare x y v (iha x ha) (ihb y hb) h
  | mul a b iha ihb =>
      intro v h
      simp only [evalExpr] at h
      cases ha : evalExpr a env with
      | error e1 => rw [ha] at h; exact absurd h (by simp)
      | ok x =>
          rw [ha] at h
          cases hb : evalExpr b env with
          | error e2 => rw [hb] at h; exact absurd h (by simp)
          | ok y =>
              rw [hb] at h
              exact mulV_bare x y v (iha x ha) (ihb y hb) h
  | div a b iha ihb =>
      intro v h
      simp only [evalExpr] at h
      cases ha : evalExpr a env with
      | error e1 => rw [ha] at h; exact absurd h (by simp)
      | ok x =>
          rw [ha] at h
          cases hb : evalExpr b env with
          | error e2 => rw [hb] at h; exact absurd h (by simp)
          | ok y =>
              rw [hb] at h
              exact divV_bare x y v (iha x ha) (ihb y hb) h

/-- C2 counterexample: in the current Formulary (`pharmakin/utils/formula.py`),
`determine_parameter` on all-unit-attached knowns with the dose given in milligrams
returns the quantity `10/34` in the derived unit `mg·ml/(g·h)`: the knowns were not
stripped to canonical-gram magnitudes before evaluation, and the returned value does not
carry the target's canonical unit `ml/h` although every known carried units. -/
theorem determine_no_unit_stripping_counterexample :
    fry1.determine_parameter clearanceP
        [("dose", .qty ⟨1, 2⟩ mgU), ("auc", .qty ⟨17, 10⟩ aucU)]
      = .ok (.qty ⟨10, 34⟩ ⟨0, 1, -1, ⟨1, 1000⟩⟩) ∧
    (⟨0, 1, -1, ⟨1, 1000⟩⟩ : PintUnit) ≠ clearanceP.unit ∧
    ([("dose", Value.qty ⟨1, 2⟩ mgU), ("auc", Value.qty ⟨17, 10⟩ aucU)].all
      (fun kv => has_units kv.2)) = true := by
  decide

/-- C2 (amended): the current `determine_parameter` (`pharmakin/utils/formula.py`) does
not strip the knowns and does not attach the target's canonical unit: the known values
flow unchanged into the compiled expression, so with unit-attached knowns the result
carries the pint-derived unit of the arithmetic (compatible with but generally different
from the canonical unit — see the counterexample).  What does hold of every successful
call: the result is validated against `target.validate` before being returned, and
all-bare knowns produce a bare result.  The legacy `determine_parameter`
(`pharmakin/utils/registry.py`), which contains the stripping and attaching code the
claim describes, raises `TypeError` on every call (its first statement invokes the
instance method `validate_input` through the class), so it never strips, solves, or
returns. -/
theorem determine_validates_result_and_legacy_type_error (fry : Formulary)
    (rfry : RegistryFormulary) (p : Parameter)
    (kwargs : List (String × Value)) (res : Value)
    (hok : fry.determine_parameter p kwargs = .ok res) :
    p.validate res = .ok () ∧
    (kwargs.all (fun kv => kv.2.isBare) = true → res.isBare = true) ∧
    rfry.determine_parameter p kwargs = .error .typeError := by
  unfold Formulary.determine_parameter at hok
  cases hv : Formula.validate_input kwargs with
  | error e =>
      rw [hv] at hok
      exact absurd hok (by simp)
  | ok u =>
      cases u
      rw [hv] at hok
      simp only [] at hok
      cases hex : fry.express_parameter p (sortStrings (kwargs.map Prod.fst)) true with
      | error e =>
          simp only [hex] at hok
          exact absurd hok (by simp)
      | ok exprs =>
          simp only [hex] at hok
          cases exprs with
          | nil => exact absurd hok (by simp)
          | cons r rest =>
              cases rest with
              | cons r2 rest2 => exact absurd hok (by simp)
              | nil =>
                  simp only [] at hok
                  cases hl : lambdifyCall r (kwargs.filter (fun kv => kv.1 ∈ r.syms)) with
                  | error e =>
                      simp only [hl] at hok
                      exact absurd hok (by simp)
                  | ok res0 =>
                      simp only [hl] at hok
                      cases hval : p.validate res0 with
                      | error e =>
                          simp only [hval] at hok
                          exact absurd hok (by simp)
                      | ok u2 =>
                          cases u2
                          simp only [hval, Except.ok.injEq] at hok
                          refine ⟨by rw [← hok]; exact hval, ?_, rfl⟩
                          intro hb
                          have hev : evalExpr r
                              (lookupKey (kwargs.filter (fun kv => kv.1 ∈ r.syms)))
                              = .ok res0 := by
                            unfold lambdifyCall at hl
                            split at hl
                            · exact hl
                            · exact absurd hl (by simp)
                          have hbare : res0.isBare = true := by
                            apply evalExpr_bare _ ?_ r res0 hev
                            intro s v hsv
                            have hmem := lookupKey_mem _ s v hsv
                            have hmem2 : (s, v) ∈ kwargs := List.mem_of_mem_filter hmem
                            have hball := (List.all_eq_true.mp hb) (s, v) hmem2
                            simpa using hball
                          rw [← hok]
                          exact hbare

/-- C2 witness: determining `clearance` from bare `dose` and `auc` in `fry1` returns the
validated bare value 10/34, while the legacy formulary raises `TypeError` on the same
call. -/
theorem determine_validates_result_and_legacy_type_error_witness :
    clearanceP.validate (.float ⟨10, 34⟩) = .ok () ∧
    ([("dose", Value.float ⟨1, 2⟩), ("auc", Value.float ⟨17, 10⟩)].all
        (fun kv => kv.2.isBare) = true → (Value.float ⟨10, 34⟩).isBare = true) ∧
    regFry1.determine_parameter clearanceP
      [("dose", .float ⟨1, 2⟩), ("auc", .float ⟨17, 10⟩)] = .error .typeError :=
  determine_validates_result_and_legacy_type_error fry1 regFry1 clearanceP
    [("dose", .float ⟨1, 2⟩), ("auc", .float ⟨17, 10⟩)] (.float ⟨10, 34⟩) (by decide)

end Pharmakin
